import Mathlib

/-!
# Verification of the lv2file routing and block-processing engine

A shallow embedding of the core of `src/lv2file.c`: the connection-matrix
builder, the control-parameter resolver, and the block processor
(mix / run / interleave / clip-check / write).  Audio samples are modelled
as rationals, C float arrays as total functions `ℕ → ℚ`, C `bool`
three-dimensional arrays as `ℕ → ℕ → ℕ → Bool`, and the NaN sentinel used
for missing port ranges as `Option ℚ`.  C strings are modelled as `List Char`.
External collaborators (libsndfile, lilv, libc `strtof`) are abstracted:
the input file is the list of its interleaved samples, the plugin's DSP is
an opaque family of output buffers, and `strtof` is a parameter.
-/

namespace Lv2file

/-- Three-dimensional boolean connection matrix,
`matrix instance port channel`, as in `bool connections[numplugins][numin][numchannels]`. -/
def Matrix3 : Type := ℕ → ℕ → ℕ → Bool

/-- A single assignment `connections[p][q][c] = true`. -/
def setConn (m : Matrix3) (p q c : ℕ) : Matrix3 :=
  fun p' q' c' => if p' = p ∧ q' = q ∧ c' = c then true else m p' q' c'

/-- A sequence of assignments `connections[p][q][c] = true`, one per list cell,
modelling the connection-setting loops of `main`. -/
def setAll (m : Matrix3) (cells : List (ℕ × ℕ × ℕ)) : Matrix3 :=
  cells.foldl (fun m' c => setConn m' c.1 c.2.1 c.2.2) m

/-- The all-false matrix, `memset (connections, 0, sizeof (connections))`. -/
def zeroMatrix : Matrix3 := fun _ _ _ => false

/-- One cell of the mixing pass of `mix` (lv2file.c:183-203): starting from
`pluginbuffers[plugnum][port][i] = 0`, loop over the file channels, count and
accumulate the flagged ones, then divide by the count if it is nonzero. -/
def mixCell (buffer : ℕ → ℚ) (numchannels : ℕ) (connections : Matrix3)
    (plugnum port i : ℕ) : ℚ :=
  let r := (List.range numchannels).foldl
    (fun acc channel =>
      if connections plugnum port channel then
        (acc.1 + 1, acc.2 + buffer (i * numchannels + channel))
      else acc)
    ((0 : ℕ), (0 : ℚ))
  if r.1 ≠ 0 then r.2 / (r.1 : ℚ) else r.2

/-- The `mix` function (lv2file.c:183-203): for every `i < framesread`, every
`plugnum < numplugins`, every `port < numin`, overwrite
`pluginbuffers[plugnum][port][i]` with the mixed sample; all other positions of
the planar buffers keep their previous contents. -/
def mix (buffer : ℕ → ℚ) (framesread numchannels numplugins numin : ℕ)
    (connections : Matrix3) (pluginbuffers : ℕ → ℕ → ℕ → ℚ) : ℕ → ℕ → ℕ → ℚ :=
  fun plugnum port i =>
    if plugnum < numplugins ∧ port < numin ∧ i < framesread then
      mixCell buffer numchannels connections plugnum port i
    else pluginbuffers plugnum port i

/-- A sequence of array stores `buffer[index] = value`. -/
def writeCells (f : ℕ → ℚ) (cells : List (ℕ × ℚ)) : ℕ → ℚ :=
  cells.foldl (fun g c => Function.update g c.1 c.2) f

/-- The stores performed by `interleaveoutput` (lv2file.c:205-215), in loop
order: for each `plugin`, each `port`, each `i < numread`,
`sndfilebuffer[plugin*numout*blocksize + i*numout + port] = outputbuffers[plugin][port][i]`. -/
def interleaveCells (numread numplugins numout blocksize : ℕ)
    (outputbuffers : ℕ → ℕ → ℕ → ℚ) : List (ℕ × ℚ) :=
  (List.range numplugins).flatMap (fun plugin =>
    (List.range numout).flatMap (fun port =>
      (List.range numread).map (fun i =>
        (plugin * numout * blocksize + i * numout + port,
         outputbuffers plugin port i))))

/-- The `interleaveoutput` function (lv2file.c:205-215) as a transformation of
the interleaved file buffer. -/
def interleaveoutput (numread numplugins numout blocksize : ℕ)
    (outputbuffers : ℕ → ℕ → ℕ → ℚ) (sndfilebuffer : ℕ → ℚ) : ℕ → ℚ :=
  writeCells sndfilebuffer (interleaveCells numread numplugins numout blocksize outputbuffers)

/-- Channel count written into `formatinfo.channels` before opening the output
file (lv2file.c:552): the number of plugin audio output ports. -/
def outputChannels (numout : ℕ) : ℕ := numout

/-- The `getstartingvalue` function (lv2file.c:217-237).  `none` models the
NaN sentinel of a missing default/min/max; `fmin`/`fmax` become `min`/`max`. -/
def getstartingvalue (dflt mn mx : Option ℚ) : ℚ :=
  match dflt with
  | some d => d
  | none =>
    match mn with
    | none =>
      match mx with
      | none => 0
      | some M => min M 0
    | some m =>
      match mx with
      | none => max m 0
      | some M => (m + M) / 2

/-- The `clipOutput` function (lv2file.c:239-256): a first pass clamps every
sample `> 1` of the first `size` positions to `1`, a second pass clamps every
sample `< -1` to `-1`; the returned flag records whether either pass clamped
anything. -/
def clipOutput (size : ℕ) (buffer : ℕ → ℚ) : (ℕ → ℚ) × Bool :=
  let c1 : Bool := (List.range size).any (fun i => decide (1 < buffer i))
  let b1 : ℕ → ℚ := fun i => if i < size ∧ 1 < buffer i then 1 else buffer i
  let c2 : Bool := (List.range size).any (fun i => decide (b1 i < -1))
  let b2 : ℕ → ℚ := fun i => if i < size ∧ b1 i < -1 then -1 else b1 i
  (b2, c1 || c2)

/-! ## C string utilities

C strings are `List Char`.  `splitAtChar` models `strchr`/`memchr` followed by
splitting at the found character; `splitAll` models repeatedly cutting a
string at a separator; `atoiChars` models `atoi`. -/

/-- Split a character list at the first occurrence of `c`; `none` when `c`
does not occur (a null `strchr` result). -/
def splitAtChar (c : Char) : List Char → Option (List Char × List Char)
  | [] => none
  | x :: xs =>
    if x = c then some ([], xs)
    else
      match splitAtChar c xs with
      | none => none
      | some (a, b) => some (x :: a, b)

/-- Helper for `splitAll`: accumulate the current segment (reversed). -/
def splitAllAux (c : Char) : List Char → List Char → List (List Char)
  | [], acc => [acc.reverse]
  | x :: xs, acc =>
    if x = c then acc.reverse :: splitAllAux c xs [] else splitAllAux c xs (x :: acc)

/-- All segments of `s` between occurrences of the separator `c` (the list is
always nonempty; an empty final segment means `s` ended with the separator). -/
def splitAll (c : Char) (s : List Char) : List (List Char) := splitAllAux c s []

/-- Join segments back with the separator between them (the text that follows
the current loop position in the original argument string). -/
def joinComma : List (List Char) → List Char
  | [] => []
  | [x] => x
  | x :: rest => x ++ ',' :: joinComma rest

/-- Numeric value of a decimal digit list. -/
def natOfDigits (l : List Char) : ℕ := l.foldl (fun a c => a * 10 + (c.toNat - 48)) 0

/-- The C `atoi`: skip spaces, optional sign, then the longest digit prefix
(`0` when there are no digits). -/
def atoiChars (s : List Char) : ℤ :=
  let t := s.dropWhile (fun c => c = ' ')
  match t with
  | '-' :: rest => -((natOfDigits (rest.takeWhile Char.isDigit) : ℤ))
  | '+' :: rest => (natOfDigits (rest.takeWhile Char.isDigit) : ℤ)
  | u => (natOfDigits (u.takeWhile Char.isDigit) : ℤ)

/-- Conversion of a C `int` value to `unsigned int`, as in the assignment
`unsigned int pluginstance = atoi (...) - 1`. -/
def toUnsigned32 (z : ℤ) : ℕ := (z % (2 ^ 32)).toNat

/-- First index whose symbol equals `sym`, mirroring the
compare-and-break loops over port symbols. -/
def findSym : List (List Char) → List Char → Option ℕ
  | [], _ => none
  | s :: rest, sym => if s = sym then some 0 else (findSym rest sym).map (· + 1)

/-! ## Connection-matrix builder

The `-c` specification is parsed twice in `main`: a first pass
(lv2file.c:563-603) only derives `numplugins` and detects fatal syntax errors,
a second pass (lv2file.c:612-657) sets matrix cells.  In the first pass the
search for the instance-separating period is `strchr` over the rest of the
whole argument (not bounded by the next comma), hence the tail context
argument below; in the second pass the comma has been overwritten with a NUL
so every search is bounded by the current entry. -/

/-- First-pass handling of one entry (lv2file.c:566-601): a missing colon
before the next comma is fatal; if a period follows the colon, the characters
between colon and period are `atoi`-parsed as the 1-based instance number, a
nonpositive number is fatal, and `numplugins` is raised to cover it. -/
def countEntry (numplugins : ℕ) (item tailCtx : List Char) : Option ℕ :=
  match splitAtChar ':' item with
  | none => none
  | some (_, rest) =>
    match splitAtChar '.' (rest ++ tailCtx) with
    | none => some numplugins
    | some (itext, _) =>
      let pluginstance : ℤ := atoiChars itext - 1
      if pluginstance < 0 then none
      else some (max numplugins (pluginstance.toNat + 1))

/-- First-pass loop over the comma-separated entries of one `-c` argument;
an empty final segment ends the loop without being treated as an entry
(`while (*connectionlist)`). -/
def countItems (numplugins : ℕ) : List (List Char) → Option ℕ
  | [] => some numplugins
  | [last] => if last = [] then some numplugins else countEntry numplugins last []
  | item :: next :: rest =>
    match countEntry numplugins item (',' :: joinComma (next :: rest)) with
    | none => none
    | some np => countItems np (next :: rest)

/-- First pass over all `-c` arguments, starting from `numplugins = 1`. -/
def countArgs : List (List Char) → ℕ → Option ℕ
  | [], np => some np
  | arg :: rest, np =>
    match countItems np (splitAll ',' arg) with
    | none => none
    | some np' => countArgs rest np'

/-- Second-pass handling of one entry (lv2file.c:615-655).  The 1-based file
channel is `atoi` of the entry; out of range is fatal.  If a period follows
the colon, the code parses the instance number from `nextcolon + 1` (skipping
the first character after the colon) and converts the `int` result of
`atoi (...) - 1` to `unsigned int`, and the symbol it then compares the audio
input port symbols against is the empty string left at the zeroed period; with
no period the instance is `0` and the symbol is the whole text after the
colon.  An unmatched symbol is a non-fatal warning. -/
def connectEntry (audioInSyms : List (List Char)) (numchannels : ℕ)
    (m : Matrix3) (warn : ℕ) (item : List Char) : Option (Matrix3 × ℕ) :=
  let channel : ℤ := atoiChars item - 1
  if channel < 0 ∨ (numchannels : ℤ) ≤ channel then none
  else
    match splitAtChar ':' item with
    | none => none
    | some (_, rest) =>
      match splitAtChar '.' rest with
      | some (itext, _) =>
        let pluginstance := toUnsigned32 (atoiChars (itext.drop 1) - 1)
        match findSym audioInSyms [] with
        | some port => some (setConn m pluginstance port channel.toNat, warn)
        | none => some (m, warn + 1)
      | none =>
        match findSym audioInSyms rest with
        | some port => some (setConn m 0 port channel.toNat, warn)
        | none => some (m, warn + 1)

/-- Second-pass loop over the comma-separated entries of one `-c` argument. -/
def connectItems (audioInSyms : List (List Char)) (numchannels : ℕ) :
    List (List Char) → Matrix3 → ℕ → Option (Matrix3 × ℕ)
  | [], m, w => some (m, w)
  | [last], m, w =>
    if last = [] then some (m, w) else connectEntry audioInSyms numchannels m w last
  | item :: next :: rest, m, w =>
    match connectEntry audioInSyms numchannels m w item with
    | none => none
    | some (m', w') => connectItems audioInSyms numchannels (next :: rest) m' w'

/-- Second pass over all `-c` arguments. -/
def connectArgs (audioInSyms : List (List Char)) (numchannels : ℕ) :
    List (List Char) → Matrix3 → ℕ → Option (Matrix3 × ℕ)
  | [], m, w => some (m, w)
  | arg :: rest, m, w =>
    match connectItems audioInSyms numchannels (splitAll ',' arg) m w with
    | none => none
    | some (m', w') => connectArgs audioInSyms numchannels rest m' w'

/-- The default connection heuristics (lv2file.c:659-686), applied to the
all-zero matrix when no `-c` argument was given; `none` is the fatal
"Not enough input channels" case. -/
def defaultConnections (numchannels numin : ℕ) (mixdown : Bool) : Option Matrix3 :=
  if numin = numchannels then
    some (setAll zeroMatrix ((List.range numin).map (fun i => (0, i, i))))
  else if numin = 1 then
    if mixdown then
      some (setAll zeroMatrix ((List.range numin).map (fun i => (0, 0, i))))
    else
      some (setAll zeroMatrix ((List.range numchannels).map (fun i => (i, 0, i))))
  else if numin < numchannels then
    some (setAll zeroMatrix ((List.range numin).map (fun i => (0, i, i))))
  else none

/-- Number of plugin instances in the default (no `-c`) case
(lv2file.c:562,604-606). -/
def defaultNumplugins (numchannels numin : ℕ) (mixdown : Bool) : ℕ :=
  if numin = 1 ∧ mixdown = false then numchannels else 1

/-- The whole connection-matrix builder: `(numplugins, matrix, warnings)`, or
`none` on a fatal configuration error.  `audioInSyms` lists the symbols of the
plugin's audio input ports in port order (so `numin = audioInSyms.length`). -/
def buildConnections (audioInSyms : List (List Char)) (numchannels : ℕ)
    (mixdown : Bool) (connectargs : List (List Char)) : Option (ℕ × Matrix3 × ℕ) :=
  if connectargs ≠ [] then
    match countArgs connectargs 1 with
    | none => none
    | some numplugins =>
      match connectArgs audioInSyms numchannels connectargs zeroMatrix 0 with
      | none => none
      | some (m, w) => some (numplugins, m, w)
  else
    match defaultConnections numchannels audioInSyms.length mixdown with
    | none => none
    | some m => some (defaultNumplugins numchannels audioInSyms.length mixdown, m, 0)

/-- Matrix component of a builder result (all-false when the builder failed). -/
def connMatrix (r : Option (ℕ × Matrix3 × ℕ)) : Matrix3 :=
  match r with
  | some x => x.2.1
  | none => zeroMatrix

/-- Instance-count component of a builder result. -/
def connNumplugins (r : Option (ℕ × Matrix3 × ℕ)) : ℕ :=
  match r with
  | some x => x.1
  | none => 0

/-- Warning-count component of a builder result. -/
def connWarnings (r : Option (ℕ × Matrix3 × ℕ)) : ℕ :=
  match r with
  | some x => x.2.2
  | none => 0

/-! ## Control parameter resolver

Port metadata as queried from lilv.  `dflt`, `minv`, `maxv` model the arrays
filled by `lilv_plugin_get_port_ranges_float`, with `none` for the NaN
sentinel; `symbol` models `lilv_port_get_symbol`; `isControlIn` classifies
control input ports; `isFreewheel` the `freeWheeling` property. -/

structure PluginPorts where
  numports : ℕ
  isControlIn : ℕ → Bool
  symbol : ℕ → List Char
  dflt : ℕ → Option ℚ
  minv : ℕ → Option ℚ
  maxv : ℕ → Option ℚ
  isFreewheel : ℕ → Bool

/-- The `controlindices` array (lv2file.c:525-531): plugin-wide indices of the
control input ports, in port order. -/
def controlindices (P : PluginPorts) : List ℕ :=
  (List.range P.numports).filter (fun i => P.isControlIn i)

/-- The `fwheelportidx` variable (lv2file.c:513,529-531): starts at `-1` and is
overwritten with the plugin-wide index of each control input port that carries
the freewheel property. -/
def fwheelportidx (P : PluginPorts) : ℤ :=
  (List.range P.numports).foldl
    (fun acc i => if P.isControlIn i && P.isFreewheel i then (i : ℤ) else acc) (-1)

/-- Symbols of the control input ports, in control-ordinal order. -/
def controlSyms (P : PluginPorts) : List (List Char) :=
  (controlindices P).map P.symbol

/-- One `set_port_value` callback invocation (lv2file.c:106-128) during preset
restoration: the value is stored into `defaultvalues` at the first plugin port
whose symbol matches. -/
def presetSet (P : PluginPorts) (defaults : ℕ → Option ℚ) (sym : List Char)
    (val : ℚ) : ℕ → Option ℚ :=
  match findSym ((List.range P.numports).map P.symbol) sym with
  | some port => fun j => if j = port then some val else defaults j
  | none => defaults

/-- Preset restoration (lv2file.c:748-750): each `(symbol, value)` pair the
preset state carries is written into the `defaultvalues` array. -/
def applyPreset (P : PluginPorts) (preset : List (List Char × ℚ))
    (defaults : ℕ → Option ℚ) : ℕ → Option ℚ :=
  preset.foldl (fun d e => presetSet P d e.1 e.2) defaults

/-- The starting control values (lv2file.c:766-769): for each control ordinal,
`getstartingvalue` of the (possibly preset-overwritten) default and the
declared range of the underlying plugin port. -/
def startingControls (P : PluginPorts) (preset : List (List Char × ℚ)) : List ℚ :=
  let defaults := applyPreset P preset P.dflt
  (controlindices P).map
    (fun portindex => getstartingvalue (defaults portindex) (P.minv portindex) (P.maxv portindex))

/-- The freewheel forcing step (lv2file.c:771-773):
`if (fwheelportidx >= 0) controlports[fwheelportidx] = 1;`.  Note that the
index used is the plugin-wide port index while the array is indexed by control
ordinal; a write past the end of the array (out of bounds in C) is modelled as
a no-op of `List.set`. -/
def afterFreewheel (P : PluginPorts) (preset : List (List Char × ℚ)) : List ℚ :=
  let cp := startingControls P preset
  if 0 ≤ fwheelportidx P then cp.set (fwheelportidx P).toNat 1 else cp

/-- One `-p` entry (lv2file.c:779-804): a missing colon is fatal; otherwise
the text before the first colon is the symbol, the value is `strtof` of the
text after it (`strtofQ` abstracts the libc call), and the first matching
control ordinal is overwritten; an unmatched symbol is a warning. -/
def paramEntry (P : PluginPorts) (strtofQ : List Char → ℚ) (cp : List ℚ)
    (warn : ℕ) (item : List Char) : Option (List ℚ × ℕ) :=
  match splitAtChar ':' item with
  | none => none
  | some (sym, vtext) =>
    match findSym (controlSyms P) sym with
    | some port => some (cp.set port (strtofQ vtext), warn)
    | none => some (cp, warn + 1)

/-- Loop over the comma-separated entries of one `-p` argument; an empty final
segment ends the loop without being treated as an entry. -/
def paramItems (P : PluginPorts) (strtofQ : List Char → ℚ) :
    List (List Char) → List ℚ → ℕ → Option (List ℚ × ℕ)
  | [], cp, w => some (cp, w)
  | [last], cp, w =>
    if last = [] then some (cp, w) else paramEntry P strtofQ cp w last
  | item :: next :: rest, cp, w =>
    match paramEntry P strtofQ cp w item with
    | none => none
    | some (cp', w') => paramItems P strtofQ (next :: rest) cp' w'

/-- All `-p` arguments (lv2file.c:775-812). -/
def paramArgs (P : PluginPorts) (strtofQ : List Char → ℚ) :
    List (List Char) → List ℚ → ℕ → Option (List ℚ × ℕ)
  | [], cp, w => some (cp, w)
  | arg :: rest, cp, w =>
    match paramItems P strtofQ (splitAll ',' arg) cp w with
    | none => none
    | some (cp', w') => paramArgs P strtofQ rest cp' w'

/-- The whole control resolution pipeline, in source order: metadata defaults,
preset restoration, `getstartingvalue`, freewheel forcing, then explicit `-p`
overrides.  `none` is a fatal parse error. -/
def resolveControls (P : PluginPorts) (strtofQ : List Char → ℚ)
    (preset : List (List Char × ℚ)) (args : List (List Char)) : Option (List ℚ × ℕ) :=
  paramArgs P strtofQ args (afterFreewheel P preset) 0

/-- Final control values of a resolver result (empty on fatal error). -/
def finalControls (r : Option (List ℚ × ℕ)) : List ℚ :=
  match r with
  | some x => x.1
  | none => []

/-! ## Block processor

`DEFINE_PROCESS` (lv2file.c:297-328).  The input file is the list of its
interleaved samples; `sf_readf_float` returns
`numread = min blocksize (remaining/numchannels)` frames and fills the first
`numread * numchannels` buffer positions.  The plugin's DSP is opaque:
`outputs k p q i` is the content of `outputbuffers[p][q][i]` after the run
calls of block `k`.  `run` invocations are logged in `trace` as
`(instance, nframes)` pairs — the code passes `blocksize` to
`lilv_instance_run`.  `CHECK_CLIPPED` (lv2file.c:341-348) is
`if (!clipped && clipOutput (numread*numout, sndfilebuffer)) { clipped = true; warn }`:
once `clipped` holds, `clipOutput` is short-circuited away.
`sf_writef_float (outsndfile, sndfilebuffer, numread)` appends the first
`numread * numout` samples of the interleaved buffer to the output file. -/

structure ProcResult where
  written : List ℚ
  reads : List ℕ
  trace : List (ℕ × ℕ)
  clipped : Bool
  warncount : ℕ

/-- The block loop, structurally recursive on a fuel bound (the loop itself
terminates because each iteration consumes at least one sample). -/
def processFuel (check : Bool) (numchannels numin numout numplugins blocksize : ℕ)
    (connections : Matrix3) (outputs : ℕ → ℕ → ℕ → ℕ → ℚ) :
    ℕ → List ℚ → ℕ → (ℕ → ℚ) → (ℕ → ℕ → ℕ → ℚ) → (ℕ → ℚ) → Bool → ℕ → ProcResult
  | 0, _, _, _, _, _, clipped, warn => ⟨[], [], [], clipped, warn⟩
  | fuel + 1, file, k, buffer, pluginbuffers, sndfilebuffer, clipped, warn =>
    let numread := min blocksize (file.length / numchannels)
    if numread = 0 then ⟨[], [], [], clipped, warn⟩
    else
      let buffer' := fun idx => if idx < numread * numchannels then file.getD idx 0 else buffer idx
      let pb' := mix buffer' numread numchannels numplugins numin connections pluginbuffers
      let blockTrace := (List.range numplugins).map (fun p => (p, blocksize))
      let ob : ℕ → ℕ → ℕ → ℚ := fun p q i => outputs k p q i
      let snd0 := interleaveoutput numread numplugins numout blocksize ob sndfilebuffer
      let step : (ℕ → ℚ) × Bool × ℕ :=
        if check then
          if clipped then (snd0, true, warn)
          else
            let r := clipOutput (numread * numout) snd0
            if r.2 then (r.1, true, warn + 1) else (r.1, false, warn)
        else (snd0, clipped, warn)
      let blockWritten := (List.range (numread * numout)).map step.1
      let rest := processFuel check numchannels numin numout numplugins blocksize
        connections outputs fuel (file.drop (numread * numchannels)) (k + 1)
        buffer' pb' step.1 step.2.1 step.2.2
      ⟨blockWritten ++ rest.written, numread :: rest.reads, blockTrace ++ rest.trace,
        rest.clipped, rest.warncount⟩

/-- The block loop started on a fresh run: zeroed buffers, `clipped = false`,
no warnings, and enough fuel for the whole file. -/
def process (check : Bool) (numchannels numin numout numplugins blocksize : ℕ)
    (connections : Matrix3) (outputs : ℕ → ℕ → ℕ → ℕ → ℚ) (file : List ℚ) : ProcResult :=
  processFuel check numchannels numin numout numplugins blocksize connections outputs
    (file.length + 1) file 0 (fun _ => 0) (fun _ _ _ => 0) (fun _ => 0) false 0

/-- End-to-end glue in source order: connection building (with its fatal
exits), control resolution (with its fatal exits), then the block loop.
A `none` anywhere aborts before any block is processed. -/
def runBatch (P : PluginPorts) (strtofQ : List Char → ℚ)
    (preset : List (List Char × ℚ)) (audioInSyms : List (List Char))
    (connectargs params : List (List Char)) (mixdown check : Bool)
    (numchannels numout blocksize : ℕ) (outputs : ℕ → ℕ → ℕ → ℕ → ℚ)
    (file : List ℚ) : Option ProcResult :=
  match buildConnections audioInSyms numchannels mixdown connectargs with
  | none => none
  | some (numplugins, connections, _) =>
    match resolveControls P strtofQ preset params with
    | none => none
    | some _ =>
      some (process check numchannels audioInSyms.length numout numplugins blocksize
        connections outputs file)

/-! ## Concrete example plugins used in evaluations -/

/-- A three-port plugin: port 0 is an audio port, port 1 a freewheel-flagged
control input with symbol `fr`, port 2 a control input `ga` with default 7.
Its freewheel port has plugin-wide index 1 but control ordinal 0. -/
def fwExampleA : PluginPorts :=
  ⟨3, fun i => decide (i = 1 ∨ i = 2),
   fun i => if i = 1 then ['f', 'r'] else ['g', 'a'],
   fun i => if i = 2 then some 7 else none,
   fun _ => none, fun _ => none, fun i => decide (i = 1)⟩

/-- A one-port plugin whose single port is a freewheel-flagged control input
with symbol `f`: here plugin-wide index and control ordinal coincide (both 0). -/
def fwExampleB : PluginPorts :=
  ⟨1, fun _ => true, fun _ => ['f'], fun _ => none, fun _ => none, fun _ => none,
   fun _ => true⟩

/-- A one-port plugin with a single control input `g` with default 3. -/
def ovExample : PluginPorts :=
  ⟨1, fun _ => true, fun _ => ['g'], fun _ => some 3, fun _ => none, fun _ => none,
   fun _ => false⟩

/-! ## Helper lemmas -/

/-- A cell of `setAll m cells` is true exactly when it was already true in `m`
or is listed in `cells`. -/
theorem setAll_true_iff (cells : List (ℕ × ℕ × ℕ)) (m : Matrix3) (p q c : ℕ) :
    setAll m cells p q c = true ↔ m p q c = true ∨ (p, q, c) ∈ cells := by
  induction cells generalizing m with
  | nil => simp [setAll]
  | cons hd tl ih =>
    show setAll (setConn m hd.1 hd.2.1 hd.2.2) tl p q c = true ↔ _
    rw [ih]
    constructor
    · rintro (h | h)
      · by_cases hc : p = hd.1 ∧ q = hd.2.1 ∧ c = hd.2.2
        · exact Or.inr (by simp [hc.1, hc.2.1, hc.2.2])
        · exact Or.inl (by simpa [setConn, hc] using h)
      · exact Or.inr (List.mem_cons_of_mem _ h)
    · rintro (h | h)
      · exact Or.inl (by simp [setConn, h])
      · rcases List.mem_cons.mp h with h | h
        · refine Or.inl ?_
          have : p = hd.1 ∧ q = hd.2.1 ∧ c = hd.2.2 := by
            constructor
            · exact congrArg Prod.fst h
            · exact ⟨congrArg (fun x => x.2.1) h, congrArg (fun x => x.2.2) h⟩
          simp [setConn, this]
        · exact Or.inr h

/-- `findSym` returns an index into the list. -/
theorem findSym_lt (l : List (List Char)) (s : List Char) (i : ℕ)
    (h : findSym l s = some i) : i < l.length := by
  induction l generalizing i with
  | nil => simp [findSym] at h
  | cons hd tl ih =>
    rw [findSym] at h
    by_cases he : hd = s
    · rw [if_pos he] at h
      injection h with h
      subst h
      simp
    · rw [if_neg he] at h
      obtain ⟨j, hj, hji⟩ := Option.map_eq_some'.mp h
      subst hji
      have := ih j hj
      simp only [List.length_cons]
      omega

/-- The counting-and-accumulating fold of `mixCell` computes the length of the
flagged sublist and the sum of the corresponding samples. -/
theorem foldCount (pred : ℕ → Bool) (f : ℕ → ℚ) (l : List ℕ) (a : ℕ) (b : ℚ) :
    l.foldl (fun acc ch => if pred ch then (acc.1 + 1, acc.2 + f ch) else acc) (a, b)
      = (a + (l.filter pred).length, b + ((l.filter pred).map f).sum) := by
  induction l generalizing a b with
  | nil => simp
  | cons hd tl ih =>
    simp only [List.foldl_cons, List.filter_cons]
    by_cases hp : pred hd
    · simp only [hp, if_true]
      rw [ih]
      simp only [List.length_cons, List.map_cons, List.sum_cons, Prod.ext_iff]
      constructor <;> ring
    · simp only [hp, Bool.false_eq_true, if_false]
      rw [ih]

/-- Reading a position that no store of `cells` targets returns the old
buffer contents. -/
theorem writeCells_not_mem (f : ℕ → ℚ) (cells : List (ℕ × ℚ)) (k : ℕ)
    (h : k ∉ cells.map Prod.fst) : writeCells f cells k = f k := by
  induction cells generalizing f with
  | nil => rfl
  | cons hd tl ih =>
    simp only [List.map_cons, List.mem_cons] at h
    push_neg at h
    show writeCells (Function.update f hd.1 hd.2) tl k = f k
    rw [ih _ h.2, Function.update_noteq h.1]

/-- When the stored positions are pairwise distinct, reading a stored position
returns the stored value. -/
theorem writeCells_mem (f : ℕ → ℚ) (cells : List (ℕ × ℚ)) (k : ℕ) (v : ℚ)
    (hnd : (cells.map Prod.fst).Nodup) (hm : (k, v) ∈ cells) :
    writeCells f cells k = v := by
  induction cells generalizing f with
  | nil => simp at hm
  | cons hd tl ih =>
    simp only [List.map_cons, List.nodup_cons] at hnd
    rcases List.mem_cons.mp hm with h | h
    · have hk : hd.1 = k := (congrArg Prod.fst h).symm
      have hv : hd.2 = v := (congrArg Prod.snd h).symm
      show writeCells (Function.update f hd.1 hd.2) tl k = v
      rw [writeCells_not_mem _ _ _ (hk ▸ hnd.1), hk, hv, Function.update_same]
    · exact ih _ hnd.2 h

/-- Uniqueness of the Euclidean decomposition `a * C + b` with `b < C`. -/
theorem encode_inj {C a₁ b₁ a₂ b₂ : ℕ} (h₁ : b₁ < C) (h₂ : b₂ < C)
    (h : a₁ * C + b₁ = a₂ * C + b₂) : a₁ = a₂ ∧ b₁ = b₂ := by
  have hC : 0 < C := by omega
  have e₁ : (a₁ * C + b₁) / C = a₁ := by
    rw [Nat.add_comm, Nat.mul_comm a₁ C, Nat.add_mul_div_left _ _ hC, Nat.div_eq_of_lt h₁]
    omega
  have e₂ : (a₂ * C + b₂) / C = a₂ := by
    rw [Nat.add_comm, Nat.mul_comm a₂ C, Nat.add_mul_div_left _ _ hC, Nat.div_eq_of_lt h₂]
    omega
  have ha : a₁ = a₂ := by rw [← e₁, ← e₂, h]
  subst ha
  exact ⟨rfl, Nat.add_left_cancel h⟩

/-- The store positions of one `interleaveoutput` call. -/
theorem interleaveCells_keys (nr np no bs : ℕ) (ob : ℕ → ℕ → ℕ → ℚ) :
    (interleaveCells nr np no bs ob).map Prod.fst
      = (List.range np).flatMap (fun p =>
          (List.range no).flatMap (fun q =>
            (List.range nr).map (fun i => p * no * bs + i * no + q))) := by
  simp [interleaveCells, List.map_flatMap, List.map_map]
  rfl

/-- The inner offset of an interleave store position is bounded by the
per-instance region size. -/
theorem inner_offset_lt {i q no bs : ℕ} (hq : q < no) (hi : i < bs) :
    i * no + q < no * bs := by
  have h1 : i * no + q < (i + 1) * no := by
    have : (i + 1) * no = i * no + no := by ring
    omega
  have h2 : (i + 1) * no ≤ bs * no := Nat.mul_le_mul_right no (by omega)
  have h3 : bs * no = no * bs := Nat.mul_comm bs no
  omega

/-- With `numread ≤ blocksize` (as guaranteed by `sf_readf_float`), all store
positions of `interleaveoutput` are pairwise distinct. -/
theorem interleaveCells_nodup (nr np no bs : ℕ) (ob : ℕ → ℕ → ℕ → ℚ)
    (hnr : nr ≤ bs) : ((interleaveCells nr np no bs ob).map Prod.fst).Nodup := by
  rw [interleaveCells_keys]
  refine List.nodup_flatMap.2 ⟨?_, ?_⟩
  · intro p _
    refine List.nodup_flatMap.2 ⟨?_, ?_⟩
    · intro q hq
      have hno : 0 < no := by
        have := List.mem_range.mp hq
        omega
      refine List.Nodup.map ?_ (List.nodup_range nr)
      intro i₁ i₂ he
      dsimp only at he
      have : i₁ * no = i₂ * no := by omega
      exact Nat.eq_of_mul_eq_mul_right hno this
    · refine ((List.pairwise_lt_range no).imp_of_mem ?_)
      intro q₁ q₂ hq₁ hq₂ hlt x hx₁ hx₂
      obtain ⟨i₁, hi₁, he₁⟩ := List.mem_map.mp hx₁
      obtain ⟨i₂, hi₂, he₂⟩ := List.mem_map.mp hx₂
      have hq₁' := List.mem_range.mp hq₁
      have hq₂' := List.mem_range.mp hq₂
      have hi₁' := List.mem_range.mp hi₁
      have hi₂' := List.mem_range.mp hi₂
      have he : i₁ * no + q₁ = i₂ * no + q₂ := by omega
      have := encode_inj hq₁' hq₂' he
      omega
  · refine ((List.pairwise_lt_range np).imp_of_mem ?_)
    intro p₁ p₂ _ _ hlt x hx₁ hx₂
    simp only [List.mem_flatMap, List.mem_map, List.mem_range] at hx₁ hx₂
    obtain ⟨q₁, hq₁, i₁, hi₁, he₁⟩ := hx₁
    obtain ⟨q₂, hq₂, i₂, hi₂, he₂⟩ := hx₂
    have hb₁ : i₁ * no + q₁ < no * bs := inner_offset_lt hq₁ (by omega)
    have hb₂ : i₂ * no + q₂ < no * bs := inner_offset_lt hq₂ (by omega)
    have he : p₁ * (no * bs) + (i₁ * no + q₁) = p₂ * (no * bs) + (i₂ * no + q₂) := by
      have a₁ : p₁ * no * bs = p₁ * (no * bs) := Nat.mul_assoc p₁ no bs
      have a₂ : p₂ * no * bs = p₂ * (no * bs) := Nat.mul_assoc p₂ no bs
      omega
    have := encode_inj hb₁ hb₂ he
    omega

/-- The store of instance `p`, port `q`, sample `i` is among the interleave
stores. -/
theorem mem_interleaveCells {nr np no bs p q i : ℕ} (ob : ℕ → ℕ → ℕ → ℚ)
    (hp : p < np) (hq : q < no) (hi : i < nr) :
    (p * no * bs + i * no + q, ob p q i) ∈ interleaveCells nr np no bs ob := by
  simp only [interleaveCells, List.mem_flatMap, List.mem_map, List.mem_range]
  exact ⟨p, hp, q, hq, i, hi, rfl⟩

/-- Value stored by `interleaveoutput` at the position the code computes for
instance `p`, output port `q`, sample `i`. -/
theorem interleaveoutput_value {nr np no bs p q i : ℕ} (ob : ℕ → ℕ → ℕ → ℚ)
    (snd : ℕ → ℚ) (hnr : nr ≤ bs) (hp : p < np) (hq : q < no) (hi : i < nr) :
    interleaveoutput nr np no bs ob snd (p * no * bs + i * no + q) = ob p q i :=
  writeCells_mem _ _ _ _ (interleaveCells_nodup nr np no bs ob hnr)
    (mem_interleaveCells ob hp hq hi)

/-- Pointwise behaviour of `clipOutput` on the scanned region: a clamp of the
sample into `[-1, 1]`. -/
theorem clipOutput_val (size : ℕ) (b : ℕ → ℚ) (i : ℕ) (hi : i < size) :
    (clipOutput size b).1 i
      = if 1 < b i then 1 else if b i < -1 then -1 else b i := by
  show (if i < size ∧ (if i < size ∧ 1 < b i then (1 : ℚ) else b i) < -1 then (-1 : ℚ)
        else if i < size ∧ 1 < b i then (1 : ℚ) else b i) = _
  by_cases h1 : 1 < b i
  · have hb1 : (if i < size ∧ 1 < b i then (1 : ℚ) else b i) = 1 := if_pos ⟨hi, h1⟩
    rw [hb1, if_neg (by norm_num), if_pos h1]
  · have hb1 : (if i < size ∧ 1 < b i then (1 : ℚ) else b i) = b i := if_neg (by tauto)
    rw [hb1, if_neg h1]
    by_cases h2 : b i < -1
    · rw [if_pos ⟨hi, h2⟩, if_pos h2]
    · rw [if_neg (by tauto), if_neg h2]

/-- Every iteration of the block loop logs the run calls of all instances in
index order, each with `blocksize` frames, one group per successful read. -/
theorem processFuel_trace (check : Bool) (nch ni no np bs : ℕ) (conn : Matrix3)
    (outs : ℕ → ℕ → ℕ → ℕ → ℚ) :
    ∀ (fuel : ℕ) (file : List ℚ) (k : ℕ) (buf : ℕ → ℚ) (pb : ℕ → ℕ → ℕ → ℚ)
      (snd : ℕ → ℚ) (cl : Bool) (w : ℕ),
      (processFuel check nch ni no np bs conn outs fuel file k buf pb snd cl w).trace
        = ((processFuel check nch ni no np bs conn outs fuel file k buf pb snd cl w).reads.map
            (fun _ => (List.range np).map (fun p => (p, bs)))).flatten := by
  intro fuel
  induction fuel with
  | zero => intro file k buf pb snd cl w; rfl
  | succ n ih =>
    intro file k buf pb snd cl w
    by_cases h0 : min bs (file.length / nch) = 0
    · simp only [processFuel, h0, if_pos]
      rfl
    · simp only [processFuel, if_neg h0]
      simp only [List.map_cons, List.flatten_cons]
      rw [ih]

/-- The clipping warning counter grows by at most one over a whole run, and
not at all when the `clipped` flag is already set. -/
theorem processFuel_warn_le (nch ni no np bs : ℕ) (conn : Matrix3)
    (outs : ℕ → ℕ → ℕ → ℕ → ℚ) :
    ∀ (fuel : ℕ) (check : Bool) (file : List ℚ) (k : ℕ) (buf : ℕ → ℚ)
      (pb : ℕ → ℕ → ℕ → ℚ) (snd : ℕ → ℚ) (cl : Bool) (w : ℕ),
      (processFuel check nch ni no np bs conn outs fuel file k buf pb snd cl w).warncount
        ≤ w + (if cl then 0 else 1) := by
  intro fuel
  induction fuel with
  | zero => intro check file k buf pb snd cl w; cases cl <;> simp [processFuel]
  | succ n ih =>
    intro check file k buf pb snd cl w
    by_cases h0 : min bs (file.length / nch) = 0
    · cases cl <;> simp [processFuel, h0]
    · cases check with
      | false =>
        simp only [processFuel, if_neg h0, Bool.false_eq_true, if_false]
        exact ih false _ _ _ _ _ cl w
      | true =>
        cases cl with
        | true =>
          simp only [processFuel, if_neg h0, if_true]
          exact le_trans (ih true _ _ _ _ _ true w) (by simp)
        | false =>
          simp only [processFuel, if_neg h0, if_true, Bool.false_eq_true, if_false]
          by_cases hf : (clipOutput ((min bs (file.length / nch)) * no)
              (interleaveoutput (min bs (file.length / nch)) np no bs
                (fun p q i => outs k p q i) snd)).2
          · simp only [hf, if_true]
            exact le_trans (ih true _ _ _ _ _ true (w + 1)) (by simp)
          · simp only [hf, Bool.false_eq_true, if_false]
            exact le_trans (ih true _ _ _ _ _ false w) (by simp)

/-- Once the `clipped` flag is set, the clip-checking loop behaves exactly like
the non-checking loop: `clipOutput` is short-circuited away and no further
block is scanned or clamped. -/
theorem processFuel_clipped_skip (nch ni no np bs : ℕ) (conn : Matrix3)
    (outs : ℕ → ℕ → ℕ → ℕ → ℚ) :
    ∀ (fuel : ℕ) (file : List ℚ) (k : ℕ) (buf : ℕ → ℚ) (pb : ℕ → ℕ → ℕ → ℚ)
      (snd : ℕ → ℚ) (w : ℕ),
      processFuel true nch ni no np bs conn outs fuel file k buf pb snd true w
        = processFuel false nch ni no np bs conn outs fuel file k buf pb snd true w := by
  intro fuel
  induction fuel with
  | zero => intro file k buf pb snd w; rfl
  | succ n ih =>
    intro file k buf pb snd w
    by_cases h0 : min bs (file.length / nch) = 0
    · simp only [processFuel, h0, if_pos]
    · simp only [processFuel, if_neg h0, if_true]
      rw [ih]
      rfl

/-- An entry with no colon is empty-string splittable only trivially:
`splitAtChar` on `[]` finds nothing. -/
theorem splitAtChar_nil (c : Char) : splitAtChar c [] = none := rfl

/-- A nonempty colonless entry anywhere in the item list makes the `-p`
entry loop fail. -/
theorem paramItems_none_of_bad (P : PluginPorts) (sf : List Char → ℚ) :
    ∀ (items : List (List Char)), (∃ bad ∈ items, bad ≠ [] ∧ splitAtChar ':' bad = none) →
      ∀ (cp : List ℚ) (w : ℕ), paramItems P sf items cp w = none := by
  intro items
  induction items with
  | nil => rintro ⟨bad, hmem, _⟩; simp at hmem
  | cons hd tl ih =>
    rintro ⟨bad, hmem, hne, hsplit⟩ cp w
    rcases List.mem_cons.mp hmem with h | h
    · subst h
      cases tl with
      | nil =>
        rw [paramItems, if_neg hne, paramEntry, hsplit]
      | cons t₁ t₂ =>
        rw [paramItems, paramEntry, hsplit]
    · have htl : tl ≠ [] := by rintro rfl; simp at h
      cases tl with
      | nil => exact absurd rfl htl
      | cons t₁ t₂ =>
        rw [paramItems]
        rcases he : paramEntry P sf cp w hd with _ | pr
        · rfl
        · exact ih ⟨bad, h, hne, hsplit⟩ pr.1 pr.2

/-- Processing a well-formed entry whose symbol matches no control input port
only increments the warning counter. -/
theorem paramItems_unknown (P : PluginPorts) (sf : List Char → ℚ)
    (item : List Char) (rest : List (List Char)) (cp : List ℚ) (w : ℕ)
    (s vt : List Char) (h : splitAtChar ':' item = some (s, vt))
    (hf : findSym (controlSyms P) s = none) :
    paramItems P sf (item :: rest) cp w = paramItems P sf rest cp (w + 1) := by
  have hne : item ≠ [] := by rintro rfl; rw [splitAtChar_nil] at h; exact Option.noConfusion h
  cases rest with
  | nil => simp only [paramItems, if_neg hne, paramEntry, h, hf]
  | cons t₁ t₂ => simp only [paramItems, paramEntry, h, hf]

/-- Processing a well-formed entry whose symbol matches control ordinal `port`
overwrites that ordinal with the parsed value, whatever it previously held. -/
theorem paramItems_match (P : PluginPorts) (sf : List Char → ℚ)
    (item : List Char) (rest : List (List Char)) (cp : List ℚ) (w : ℕ)
    (s vt : List Char) (port : ℕ) (h : splitAtChar ':' item = some (s, vt))
    (hf : findSym (controlSyms P) s = some port) :
    paramItems P sf (item :: rest) cp w = paramItems P sf rest (cp.set port (sf vt)) w := by
  have hne : item ≠ [] := by rintro rfl; rw [splitAtChar_nil] at h; exact Option.noConfusion h
  cases rest with
  | nil => simp only [paramItems, if_neg hne, paramEntry, h, hf]
  | cons t₁ t₂ => simp only [paramItems, paramEntry, h, hf]

/-- If no processed `-p` entry resolves to control ordinal `k`, the entry loop
leaves position `k` unchanged. -/
theorem paramItems_getD (P : PluginPorts) (sf : List Char → ℚ) (k : ℕ) :
    ∀ (items : List (List Char)) (cp : List ℚ) (w : ℕ) (cp' : List ℚ) (w' : ℕ),
      paramItems P sf items cp w = some (cp', w') →
      (∀ item ∈ items, ∀ s vt, splitAtChar ':' item = some (s, vt) →
        findSym (controlSyms P) s ≠ some k) →
      cp'.getD k 0 = cp.getD k 0 := by
  intro items
  induction items with
  | nil =>
    intro cp w cp' w' h _
    rw [paramItems] at h
    injection h with h
    rw [(Prod.mk.injEq _ _ _ _).mp h |>.1]
  | cons hd tl ih =>
    intro cp w cp' w' h hk
    have step : ∀ (cp₀ : List ℚ) (w₀ : ℕ), paramEntry P sf cp w hd = some (cp₀, w₀) →
        cp₀.getD k 0 = cp.getD k 0 := by
      intro cp₀ w₀ he
      rcases hs : splitAtChar ':' hd with _ | ⟨s, vt⟩
      · simp only [paramEntry, hs] at he
        exact Option.noConfusion he
      · simp only [paramEntry, hs] at he
        rcases hfs : findSym (controlSyms P) s with _ | port
        · simp only [hfs] at he
          injection he with he
          rw [(Prod.mk.injEq _ _ _ _).mp he |>.1]
        · simp only [hfs] at he
          injection he with he
          have hcp := (Prod.mk.injEq _ _ _ _).mp he |>.1
          have hpk : port ≠ k := by
            intro hpk
            exact hk hd (List.mem_cons_self _ _) s vt hs (hpk ▸ hfs)
          rw [← hcp]
          simp [List.getD_eq_getElem?_getD, List.getElem?_set_ne hpk]
    cases tl with
    | nil =>
      by_cases hne : hd = []
      · simp only [paramItems, if_pos hne] at h
        injection h with h
        rw [(Prod.mk.injEq _ _ _ _).mp h |>.1]
      · simp only [paramItems, if_neg hne] at h
        exact step cp' w' h
    | cons t₁ t₂ =>
      rcases he : paramEntry P sf cp w hd with _ | pr
      · simp only [paramItems, he] at h
        exact Option.noConfusion h
      · simp only [paramItems, he] at h
        have := ih pr.1 pr.2 cp' w' h
          (fun item hm s vt hs => hk item (List.mem_cons_of_mem _ hm) s vt hs)
        rw [this, step pr.1 pr.2 (by rw [he])]

/-- Lifting of `paramItems_none_of_bad` to the loop over `-p` arguments. -/
theorem paramArgs_none_of_bad (P : PluginPorts) (sf : List Char → ℚ) :
    ∀ (args : List (List Char)),
      (∃ arg ∈ args, ∃ bad ∈ splitAll ',' arg, bad ≠ [] ∧ splitAtChar ':' bad = none) →
      ∀ (cp : List ℚ) (w : ℕ), paramArgs P sf args cp w = none := by
  intro args
  induction args with
  | nil => rintro ⟨arg, hmem, _⟩; simp at hmem
  | cons hd tl ih =>
    rintro ⟨arg, hmem, bad, hbad, hne, hsplit⟩ cp w
    rcases List.mem_cons.mp hmem with h | h
    · subst h
      rw [paramArgs, paramItems_none_of_bad P sf _ ⟨bad, hbad, hne, hsplit⟩]
    · rw [paramArgs]
      rcases he : paramItems P sf (splitAll ',' hd) cp w with _ | pr
      · rfl
      · exact ih ⟨arg, h, bad, hbad, hne, hsplit⟩ pr.1 pr.2

/-- Lifting of `paramItems_getD` to the loop over `-p` arguments. -/
theorem paramArgs_getD (P : PluginPorts) (sf : List Char → ℚ) (k : ℕ) :
    ∀ (args : List (List Char)) (cp : List ℚ) (w : ℕ) (cp' : List ℚ) (w' : ℕ),
      paramArgs P sf args cp w = some (cp', w') →
      (∀ arg ∈ args, ∀ item ∈ splitAll ',' arg, ∀ s vt,
        splitAtChar ':' item = some (s, vt) → findSym (controlSyms P) s ≠ some k) →
      cp'.getD k 0 = cp.getD k 0 := by
  intro args
  induction args with
  | nil =>
    intro cp w cp' w' h _
    rw [paramArgs] at h
    injection h with h
    rw [(Prod.mk.injEq _ _ _ _).mp h |>.1]
  | cons hd tl ih =>
    intro cp w cp' w' h hk
    rw [paramArgs] at h
    rcases he : paramItems P sf (splitAll ',' hd) cp w with _ | pr
    · rw [he] at h; exact Option.noConfusion h
    · rw [he] at h
      have h1 := paramItems_getD P sf k (splitAll ',' hd) cp w pr.1 pr.2 (by rw [he])
        (fun item hm s vt hs => hk hd (List.mem_cons_self _ _) item hm s vt hs)
      have h2 := ih pr.1 pr.2 cp' w' h
        (fun arg hm => hk arg (List.mem_cons_of_mem _ hm))
      rw [h2, h1]

/-- A second-pass entry only ever sets cells whose port is an audio-input
ordinal and whose channel is in range. -/
theorem connectEntry_inv (syms : List (List Char)) (nch : ℕ) (m : Matrix3)
    (w : ℕ) (item : List Char) (m' : Matrix3) (w' : ℕ)
    (h : connectEntry syms nch m w item = some (m', w'))
    (hm : ∀ p q c, m p q c = true → q < syms.length ∧ c < nch) :
    ∀ p q c, m' p q c = true → q < syms.length ∧ c < nch := by
  rw [connectEntry] at h
  by_cases hch : atoiChars item - 1 < 0 ∨ (nch : ℤ) ≤ atoiChars item - 1
  · rw [if_pos hch] at h
    exact Option.noConfusion h
  · rw [if_neg hch] at h
    push_neg at hch
    have hc : (atoiChars item - 1).toNat < nch := by omega
    have hset : ∀ (pl port : ℕ), port < syms.length →
        ∀ p q c, setConn m pl port (atoiChars item - 1).toNat p q c = true →
          q < syms.length ∧ c < nch := by
      intro pl port hport p q c hs
      rw [setConn] at hs
      by_cases hcond : p = pl ∧ q = port ∧ c = (atoiChars item - 1).toNat
      · exact ⟨hcond.2.1 ▸ hport, hcond.2.2 ▸ hc⟩
      · rw [if_neg hcond] at hs
        exact hm p q c hs
    rcases hcolon : splitAtChar ':' item with _ | ⟨pre, rest⟩
    · simp only [hcolon] at h
      exact Option.noConfusion h
    · simp only [hcolon] at h
      rcases hper : splitAtChar '.' rest with _ | ⟨itext, post⟩
      · simp only [hper] at h
        rcases hfs : findSym syms rest with _ | port
        · simp only [hfs] at h
          injection h with h
          have := (Prod.mk.injEq _ _ _ _).mp h |>.1
          exact this ▸ hm
        · simp only [hfs] at h
          injection h with h
          have hmm := (Prod.mk.injEq _ _ _ _).mp h |>.1
          exact hmm ▸ hset 0 port (findSym_lt _ _ _ hfs)
      · simp only [hper] at h
        rcases hfs : findSym syms [] with _ | port
        · simp only [hfs] at h
          injection h with h
          have := (Prod.mk.injEq _ _ _ _).mp h |>.1
          exact this ▸ hm
        · simp only [hfs] at h
          injection h with h
          have hmm := (Prod.mk.injEq _ _ _ _).mp h |>.1
          exact hmm ▸ hset _ port (findSym_lt _ _ _ hfs)

/-- The second-pass entry loop preserves the port/channel bounds invariant. -/
theorem connectItems_inv (syms : List (List Char)) (nch : ℕ) :
    ∀ (items : List (List Char)) (m : Matrix3) (w : ℕ) (m' : Matrix3) (w' : ℕ),
      connectItems syms nch items m w = some (m', w') →
      (∀ p q c, m p q c = true → q < syms.length ∧ c < nch) →
      ∀ p q c, m' p q c = true → q < syms.length ∧ c < nch := by
  intro items
  induction items with
  | nil =>
    intro m w m' w' h hm
    rw [connectItems] at h
    injection h with h
    have := (Prod.mk.injEq _ _ _ _).mp h |>.1
    exact this ▸ hm
  | cons hd tl ih =>
    intro m w m' w' h hm
    cases tl with
    | nil =>
      by_cases hne : hd = []
      · simp only [connectItems, if_pos hne] at h
        injection h with h
        have := (Prod.mk.injEq _ _ _ _).mp h |>.1
        exact this ▸ hm
      · simp only [connectItems, if_neg hne] at h
        exact connectEntry_inv syms nch m w hd m' w' h hm
    | cons t₁ t₂ =>
      rcases he : connectEntry syms nch m w hd with _ | pr
      · simp only [connectItems, he] at h
        exact Option.noConfusion h
      · simp only [connectItems, he] at h
        exact ih pr.1 pr.2 m' w' h (connectEntry_inv syms nch m w hd pr.1 pr.2 (by rw [he]) hm)

/-- The second pass over all `-c` arguments preserves the bounds invariant. -/
theorem connectArgs_inv (syms : List (List Char)) (nch : ℕ) :
    ∀ (args : List (List Char)) (m : Matrix3) (w : ℕ) (m' : Matrix3) (w' : ℕ),
      connectArgs syms nch args m w = some (m', w') →
      (∀ p q c, m p q c = true → q < syms.length ∧ c < nch) →
      ∀ p q c, m' p q c = true → q < syms.length ∧ c < nch := by
  intro args
  induction args with
  | nil =>
    intro m w m' w' h hm
    rw [connectArgs] at h
    injection h with h
    have := (Prod.mk.injEq _ _ _ _).mp h |>.1
    exact this ▸ hm
  | cons hd tl ih =>
    intro m w m' w' h hm
    rcases he : connectItems syms nch (splitAll ',' hd) m w with _ | pr
    · simp only [connectArgs, he] at h
      exact Option.noConfusion h
    · simp only [connectArgs, he] at h
      exact ih pr.1 pr.2 m' w' h
        (connectItems_inv syms nch (splitAll ',' hd) m w pr.1 pr.2 (by rw [he]) hm)

/-- The default heuristics only set cells with an audio-input port ordinal and
an in-range channel (for any sound file, which has at least one channel). -/
theorem defaultConnections_inv (nch ni : ℕ) (mixd : Bool) (m' : Matrix3)
    (h1 : 1 ≤ nch) (h : defaultConnections nch ni mixd = some m') :
    ∀ p q c, m' p q c = true → q < ni ∧ c < nch := by
  intro p q c hm
  rw [defaultConnections] at h
  by_cases e1 : ni = nch
  · rw [if_pos e1] at h
    injection h with h
    rw [← h] at hm
    rcases (setAll_true_iff _ _ _ _ _).mp hm with hz | hz
    · exact absurd hz (by simp [zeroMatrix])
    · obtain ⟨i, hi, he⟩ := List.mem_map.mp hz
      obtain ⟨rfl, rfl, rfl⟩ := Prod.mk.injEq _ _ _ _ ▸ he
      have := List.mem_range.mp hi
      omega
  · rw [if_neg e1] at h
    by_cases e2 : ni = 1
    · rw [if_pos e2] at h
      by_cases e3 : mixd = true
      · rw [if_pos e3] at h
        injection h with h
        rw [← h] at hm
        rcases (setAll_true_iff _ _ _ _ _).mp hm with hz | hz
        · exact absurd hz (by simp [zeroMatrix])
        · obtain ⟨i, hi, he⟩ := List.mem_map.mp hz
          obtain ⟨rfl, rfl, rfl⟩ := Prod.mk.injEq _ _ _ _ ▸ he
          have := List.mem_range.mp hi
          omega
      · rw [if_neg e3] at h
        injection h with h
        rw [← h] at hm
        rcases (setAll_true_iff _ _ _ _ _).mp hm with hz | hz
        · exact absurd hz (by simp [zeroMatrix])
        · obtain ⟨i, hi, he⟩ := List.mem_map.mp hz
          obtain ⟨rfl, rfl, rfl⟩ := Prod.mk.injEq _ _ _ _ ▸ he
          have := List.mem_range.mp hi
          omega
    · rw [if_neg e2] at h
      by_cases e4 : ni < nch
      · rw [if_pos e4] at h
        injection h with h
        rw [← h] at hm
        rcases (setAll_true_iff _ _ _ _ _).mp hm with hz | hz
        · exact absurd hz (by simp [zeroMatrix])
        · obtain ⟨i, hi, he⟩ := List.mem_map.mp hz
          obtain ⟨rfl, rfl, rfl⟩ := Prod.mk.injEq _ _ _ _ ▸ he
          have := List.mem_range.mp hi
          omega
      · rw [if_neg e4] at h
        exact Option.noConfusion h

/-- The mixed sample of `mixCell` is the sum of the flagged channels' samples
divided by their number, and `0` when no channel is flagged. -/
theorem mixCell_eq (buffer : ℕ → ℚ) (nch : ℕ) (conn : Matrix3) (p q i : ℕ) :
    mixCell buffer nch conn p q i =
      (if ((List.range nch).filter (fun ch => conn p q ch)).length = 0 then 0
       else (((List.range nch).filter (fun ch => conn p q ch)).map
               (fun ch => buffer (i * nch + ch))).sum
         / (((List.range nch).filter (fun ch => conn p q ch)).length : ℚ)) := by
  have hf := foldCount (fun ch => conn p q ch) (fun ch => buffer (i * nch + ch))
    (List.range nch) 0 0
  simp only [mixCell]
  rw [hf]
  simp only [Nat.zero_add, zero_add]
  by_cases h0 : ((List.range nch).filter (fun ch => conn p q ch)).length = 0
  · rw [if_neg (fun hne => hne h0), if_pos h0, List.length_eq_zero.mp h0]
    simp
  · rw [if_pos h0, if_neg h0]

/-! ## The claims -/

/-- Claim C1 (code bug).  With no `-c` specification, one audio input port and
mixdown requested on a 4-channel file, the builder is supposed (and announces:
"Down mixing all channels to a single plugin input") to connect all four file
channels to the single port, and the mixed sample should be the arithmetic
mean of the four channel samples.  The loop at lv2file.c:668 iterates
`i < numin` (which is 1) instead of `i < numchannels`, so only channel 0 is
connected: the matrix has exactly one true cell and the mixed sample of the
frame `(1, 3, 5, 7)` is `1`, not the mean `4`. -/
theorem C1_mixdown_connects_only_channel_zero :
    connNumplugins (buildConnections [['i', 'n']] 4 true []) = 1 ∧
    connMatrix (buildConnections [['i', 'n']] 4 true []) 0 0 0 = true ∧
    connMatrix (buildConnections [['i', 'n']] 4 true []) 0 0 1 = false ∧
    connMatrix (buildConnections [['i', 'n']] 4 true []) 0 0 2 = false ∧
    connMatrix (buildConnections [['i', 'n']] 4 true []) 0 0 3 = false ∧
    mix (fun idx => [(1 : ℚ), 3, 5, 7].getD idx 0) 1 4 1 1
      (connMatrix (buildConnections [['i', 'n']] 4 true [])) (fun _ _ _ => 0) 0 0 0 = 1 ∧
    ((1 : ℚ) + 3 + 5 + 7) / 4 = 4 ∧ (1 : ℚ) ≠ 4 := by
  refine ⟨rfl, rfl, rfl, rfl, rfl, ?_, by norm_num, by norm_num⟩
  with_unfolding_all decide

/-- Claim C6 (code bug).  For the well-formed entry `1:2.in` on a plugin whose
only audio input port has symbol `in` and a 1-channel file, the first parsing
pass derives `numplugins = 2` from the full instance number, but the second
pass parses the instance number from `nextcolon + 1` (dropping its first
digit) and compares the port symbols against the empty string left at the
zeroed period, so the claimed cell `matrix[1][0][0]` is never set and a
"Port with symbol ... does not exist" warning is counted instead.  The entry
`1:in` without an instance index does set `matrix[0][0][0]`. -/
theorem C6_instanced_entry_sets_nothing :
    connNumplugins (buildConnections [['i', 'n']] 1 false [['1', ':', '2', '.', 'i', 'n']]) = 2 ∧
    connWarnings (buildConnections [['i', 'n']] 1 false [['1', ':', '2', '.', 'i', 'n']]) = 1 ∧
    connMatrix (buildConnections [['i', 'n']] 1 false [['1', ':', '2', '.', 'i', 'n']]) 1 0 0
      = false ∧
    connMatrix (buildConnections [['i', 'n']] 1 false [['1', ':', 'i', 'n']]) 0 0 0 = true := by
  exact ⟨rfl, rfl, rfl, rfl⟩

/-- Claim C7 (confirmed).  For every block, instance `p < numplugins`, input
port `q < numin` and sample `i < framesread`, the mixed planar sample equals
the sum of the interleaved input samples at frame `i` over the file channels
flagged in the connection matrix for `(p, q)`, divided by the number of
flagged channels, and `0` when no channel is flagged. -/
theorem C7_mix_is_mean (buffer : ℕ → ℚ) (pb : ℕ → ℕ → ℕ → ℚ) (conn : Matrix3)
    (n nch np ni p q i : ℕ) (hp : p < np) (hq : q < ni) (hi : i < n) :
    mix buffer n nch np ni conn pb p q i =
      (if ((List.range nch).filter (fun ch => conn p q ch)).length = 0 then 0
       else (((List.range nch).filter (fun ch => conn p q ch)).map
               (fun ch => buffer (i * nch + ch))).sum
         / (((List.range nch).filter (fun ch => conn p q ch)).length : ℚ)) := by
  show (if p < np ∧ q < ni ∧ i < n then mixCell buffer nch conn p q i else pb p q i) = _
  rw [if_pos ⟨hp, hq, hi⟩]
  exact mixCell_eq buffer nch conn p q i

/-- Witness for C7: on the frame `(1, 3, 5, 7)` with channels 0 and 1 flagged,
the mixed sample is `(1 + 3) / 2 = 2`. -/
theorem C7_witness :
    (0 : ℕ) < 1 ∧
    mix (fun idx => [(1 : ℚ), 3, 5, 7].getD idx 0) 1 4 1 1
        (fun _ _ ch => decide (ch < 2)) (fun _ _ _ => 0) 0 0 0 =
      (if ((List.range 4).filter (fun ch => (fun _ _ ch => decide (ch < 2)) 0 0 ch)).length = 0
       then 0
       else (((List.range 4).filter (fun ch => (fun _ _ ch => decide (ch < 2)) 0 0 ch)).map
               (fun ch => (fun idx => [(1 : ℚ), 3, 5, 7].getD idx 0) (0 * 4 + ch))).sum
         / (((List.range 4).filter
               (fun ch => (fun _ _ ch => decide (ch < 2)) 0 0 ch)).length : ℚ)) :=
  ⟨by decide,
   C7_mix_is_mean (fun idx => [(1 : ℚ), 3, 5, 7].getD idx 0) (fun _ _ _ => 0)
     (fun _ _ ch => decide (ch < 2)) 1 4 1 1 0 0 0 (by decide) (by decide) (by decide)⟩

/-- Claim C8 (confirmed).  `getstartingvalue` returns the default when it is
defined; `0` when default, minimum and maximum are all undefined;
`min(max, 0)` when only the maximum is defined; `max(min, 0)` when only the
minimum is defined; the midpoint when both bounds but no default are defined —
including all the concrete cases the specification lists. -/
theorem C8_getstartingvalue_cases :
    (∀ (d : ℚ) (mn mx : Option ℚ), getstartingvalue (some d) mn mx = d) ∧
    getstartingvalue none none none = 0 ∧
    (∀ M : ℚ, getstartingvalue none none (some M) = min M 0) ∧
    (∀ m : ℚ, getstartingvalue none (some m) none = max m 0) ∧
    (∀ m M : ℚ, getstartingvalue none (some m) (some M) = (m + M) / 2) ∧
    getstartingvalue none none (some 5) = 0 ∧
    getstartingvalue none none (some (-3)) = -3 ∧
    getstartingvalue none (some 2) none = 2 ∧
    getstartingvalue none (some (-5)) none = 0 ∧
    getstartingvalue none (some 1) (some 5) = 3 ∧
    (∀ mn mx : Option ℚ, getstartingvalue (some (5 / 2)) mn mx = 5 / 2) :=
  ⟨fun _ _ _ => rfl, rfl, fun _ => rfl, fun _ => rfl, fun _ _ => rfl,
   by decide, by decide, by decide, by decide, by norm_num [getstartingvalue],
   fun _ _ => rfl⟩

/-- Claim C9 (confirmed).  Whatever connection matrix the builder produces —
through the explicit `-c` path or any default heuristic — every true cell
`matrix p q c` has `q` an ordinal into the audio input port list (so it never
denotes a control or output port) and `c < numFileChannels`; the file has at
least one channel. -/
theorem C9_matrix_invariant (audioInSyms : List (List Char)) (nch : ℕ)
    (mixd : Bool) (cargs : List (List Char)) (h1 : 1 ≤ nch) (p q c : ℕ)
    (h : connMatrix (buildConnections audioInSyms nch mixd cargs) p q c = true) :
    q < audioInSyms.length ∧ c < nch := by
  rw [buildConnections] at h
  by_cases hc : cargs ≠ []
  · rw [if_pos hc] at h
    rcases h1' : countArgs cargs 1 with _ | np
    · rw [h1'] at h
      simp [connMatrix, zeroMatrix] at h
    · rw [h1'] at h
      rcases h2 : connectArgs audioInSyms nch cargs zeroMatrix 0 with _ | pr
      · rw [h2] at h
        simp [connMatrix, zeroMatrix] at h
      · rw [h2] at h
        simp only [connMatrix] at h
        exact connectArgs_inv audioInSyms nch cargs zeroMatrix 0 pr.1 pr.2 (by rw [h2])
          (fun p' q' c' hz => absurd hz (by simp [zeroMatrix])) p q c h
  · rw [if_neg hc] at h
    rcases hd : defaultConnections nch audioInSyms.length mixd with _ | m
    · rw [hd] at h
      simp [connMatrix, zeroMatrix] at h
    · rw [hd] at h
      simp only [connMatrix] at h
      exact defaultConnections_inv nch audioInSyms.length mixd m h1 hd p q c h

/-- Witness for C9: the 2-in/2-channel diagonal default mapping has its cell
`(0,0,0)` set, and the invariant instantiates there. -/
theorem C9_witness :
    (1 ≤ 2 ∧ connMatrix (buildConnections [['l'], ['r']] 2 false []) 0 0 0 = true) ∧
    (0 < ([['l'], ['r']] : List (List Char)).length ∧ 0 < 2) :=
  ⟨⟨by decide, by decide⟩,
   C9_matrix_invariant [['l'], ['r']] 2 false [] (by decide) 0 0 0 (by decide)⟩

/-- Claim C2 counterexample.  With clip checking enabled, block 0 produces the
sample `3/2` (clamped to `1`, one warning) and block 1 produces `2`; because
`CHECK_CLIPPED` short-circuits `clipOutput` behind `!clipped`, the second
block is written unclamped: the output file contains the sample `2 ∉ [-1,1]`,
refuting "any sample > 1.0 is clamped ... in every subsequent block alike". -/
theorem C2_counterexample :
    (process true 1 1 1 1 1 zeroMatrix
        (fun k _ _ _ => if k = 0 then (3 : ℚ) / 2 else 2) [0, 0]).written = [1, 2] ∧
    (process true 1 1 1 1 1 zeroMatrix
        (fun k _ _ _ => if k = 0 then (3 : ℚ) / 2 else 2) [0, 0]).warncount = 1 ∧
    ¬ (∀ x ∈ (process true 1 1 1 1 1 zeroMatrix
        (fun k _ _ _ => if k = 0 then (3 : ℚ) / 2 else 2) [0, 0]).written,
        -1 ≤ x ∧ x ≤ 1) := by
  refine ⟨?_, ?_, ?_⟩ <;> with_unfolding_all decide

/-- Claim C2 (corrected).  (1) On the scanned region `clipOutput` clamps each
sample into `[-1, 1]` (`> 1 ↦ 1`, `< -1 ↦ -1`, in-range unchanged); (2) the
clipping warning is emitted at most once per run; (3) but once the `clipped`
flag is set, the remaining blocks are processed exactly as with clip checking
disabled — they are written without being scanned or clamped. -/
theorem C2_clip_amended :
    (∀ (size : ℕ) (b : ℕ → ℚ) (i : ℕ), i < size →
      (clipOutput size b).1 i = (if 1 < b i then 1 else if b i < -1 then -1 else b i) ∧
      -1 ≤ (clipOutput size b).1 i ∧ (clipOutput size b).1 i ≤ 1) ∧
    (∀ (check : Bool) (nch ni no np bs : ℕ) (conn : Matrix3)
       (outs : ℕ → ℕ → ℕ → ℕ → ℚ) (file : List ℚ),
      (process check nch ni no np bs conn outs file).warncount ≤ 1) ∧
    (∀ (nch ni no np bs : ℕ) (conn : Matrix3) (outs : ℕ → ℕ → ℕ → ℕ → ℚ)
       (fuel : ℕ) (file : List ℚ) (k : ℕ) (buf : ℕ → ℚ) (pb : ℕ → ℕ → ℕ → ℚ)
       (snd : ℕ → ℚ) (w : ℕ),
      processFuel true nch ni no np bs conn outs fuel file k buf pb snd true w
        = processFuel false nch ni no np bs conn outs fuel file k buf pb snd true w) := by
  refine ⟨?_, ?_, ?_⟩
  · intro size b i hi
    refine ⟨clipOutput_val size b i hi, ?_, ?_⟩
    · rw [clipOutput_val size b i hi]
      split_ifs with h1 h2
      · norm_num
      · norm_num
      · linarith [not_lt.mp h2]
    · rw [clipOutput_val size b i hi]
      split_ifs with h1 h2
      · norm_num
      · norm_num
      · linarith [not_lt.mp h1]
  · intro check nch ni no np bs conn outs file
    have := processFuel_warn_le nch ni no np bs conn outs (file.length + 1) check file 0
      (fun _ => 0) (fun _ _ _ => 0) (fun _ => 0) false 0
    simpa [process] using this
  · intro nch ni no np bs conn outs fuel file k buf pb snd w
    exact processFuel_clipped_skip nch ni no np bs conn outs fuel file k buf pb snd w

/-- Witness for C2: the out-of-range sample `3/2` at position 0 of a
1-element region is clamped to `1`, which lies in `[-1, 1]`. -/
theorem C2_witness :
    (0 < 1) ∧
    ((clipOutput 1 (fun _ => (3 : ℚ) / 2)).1 0
        = (if 1 < (fun _ => (3 : ℚ) / 2) 0 then 1
           else if (fun _ => (3 : ℚ) / 2) 0 < -1 then -1 else (fun _ => (3 : ℚ) / 2) 0) ∧
      -1 ≤ (clipOutput 1 (fun _ => (3 : ℚ) / 2)).1 0 ∧
      (clipOutput 1 (fun _ => (3 : ℚ) / 2)).1 0 ≤ 1) :=
  ⟨by decide, C2_clip_amended.1 1 (fun _ => (3 : ℚ) / 2) 0 (by decide)⟩

/-- Claim C3 counterexample.  With block size 2 and a 1-frame, 1-channel input
file, the single block reads `n = 1` frame, but the logged run call passes
`blocksize = 2` frames to the instance — `lilv_instance_run (instances[p],
blocksize)` — refuting "one processing pass over exactly n frames". -/
theorem C3_counterexample :
    (process true 1 1 1 1 2 zeroMatrix (fun _ _ _ _ => (0 : ℚ)) [0]).reads = [1] ∧
    (process true 1 1 1 1 2 zeroMatrix (fun _ _ _ _ => (0 : ℚ)) [0]).trace = [(0, 2)] ∧
    ¬ ((process true 1 1 1 1 2 zeroMatrix (fun _ _ _ _ => (0 : ℚ)) [0]).trace.map Prod.snd
        = (process true 1 1 1 1 2 zeroMatrix (fun _ _ _ _ => (0 : ℚ)) [0]).reads) := by
  refine ⟨?_, ?_, ?_⟩ <;> with_unfolding_all decide

/-- Claim C3 (corrected).  On every iteration of the block loop each instance
is invoked exactly once, in index order, and every invocation processes
exactly `blocksize` frames (the configured block size), regardless of how many
frames the block's read returned: the run-call log is one group
`(0, bs), ..., (numplugins-1, bs)` per successful read. -/
theorem C3_runs_blocksize (check : Bool) (nch ni no np bs : ℕ) (conn : Matrix3)
    (outs : ℕ → ℕ → ℕ → ℕ → ℚ) (file : List ℚ) :
    (process check nch ni no np bs conn outs file).trace
      = ((process check nch ni no np bs conn outs file).reads.map
          (fun _ => (List.range np).map (fun p => (p, bs)))).flatten :=
  processFuel_trace check nch ni no np bs conn outs (file.length + 1) file 0
    (fun _ => 0) (fun _ _ _ => 0) (fun _ => 0) false 0

/-- Claim C4 counterexample.  For `fwExampleA` — audio port 0, freewheel
control port at plugin index 1 (control ordinal 0), control `ga` at index 2
(ordinal 1, default 7) — with no preset and no overrides, the forcing
`controlports[fwheelportidx] = 1` uses the plugin-wide index 1 and so
overwrites ordinal 1 (`ga`); the freewheel port's resolved value stays
`getstartingvalue(NaN, NaN, NaN) = 0 ≠ 1`. -/
theorem C4_counterexample :
    controlindices fwExampleA = [1, 2] ∧
    fwheelportidx fwExampleA = 1 ∧
    finalControls (resolveControls fwExampleA (fun _ => 0) [] []) = [0, 1] ∧
    ¬ ((finalControls (resolveControls fwExampleA (fun _ => 0) [] [])).getD 0 0 = 1) := by
  refine ⟨?_, ?_, ?_, ?_⟩ <;> with_unfolding_all decide

/-- Claim C4 (corrected).  The freewheel write targets the control array at
the freewheel port's plugin-wide index `k`, after metadata/preset resolution
but before the explicit overrides.  When that index happens to coincide with
the port's control ordinal (`controlindices[k] = k`) and no override entry
resolves to ordinal `k`, the resolved value of the freewheel port is `1` for
every combination of metadata defaults and preset values. -/
theorem C4_freewheel_amended (P : PluginPorts) (sf : List Char → ℚ)
    (preset : List (List Char × ℚ)) (args : List (List Char)) (k : ℕ)
    (cp : List ℚ) (w : ℕ) (hk : fwheelportidx P = (k : ℤ))
    (hcoin : (controlindices P).get? k = some k)
    (hnov : ∀ arg ∈ args, ∀ item ∈ splitAll ',' arg, ∀ s vt,
      splitAtChar ':' item = some (s, vt) → findSym (controlSyms P) s ≠ some k)
    (hres : resolveControls P sf preset args = some (cp, w)) :
    cp.getD k 0 = 1 := by
  have hk' : k < (controlindices P).length := (List.get?_eq_some.mp hcoin).choose
  have hlen : (startingControls P preset).length = (controlindices P).length := by
    rw [startingControls]
    exact List.length_map _ _
  have hfw : (afterFreewheel P preset).getD k 0 = 1 := by
    rw [afterFreewheel, if_pos (by rw [hk]; exact_mod_cast Nat.zero_le k), hk]
    have htn : ((k : ℤ)).toNat = k := Int.toNat_natCast k
    rw [htn]
    have hklen : k < (startingControls P preset).length := by omega
    simp [List.getD_eq_getElem?_getD, List.getElem?_set_self, hklen]
  rw [resolveControls] at hres
  have := paramArgs_getD P sf k args (afterFreewheel P preset) 0 cp w hres hnov
  rw [this, hfw]

/-- Witness for C4: for `fwExampleB` the freewheel port is the only port, the
plugin-wide index and the control ordinal are both 0, there are no overrides,
and the resolved value is 1. -/
theorem C4_witness :
    (fwheelportidx fwExampleB = ((0 : ℕ) : ℤ) ∧
      (controlindices fwExampleB).get? 0 = some 0) ∧
    ([(1 : ℚ)]).getD 0 0 = 1 :=
  ⟨⟨by decide, by decide⟩,
   C4_freewheel_amended fwExampleB (fun _ => 0) [] [] 0 [1] 0 (by decide) (by decide)
     (by simp) (by with_unfolding_all rfl)⟩

/-- Claim C5 counterexample.  With 2 instances, 1 output port, block size 2
and 2 frames read, the claimed position of instance 1's sample 0 is
`i·(numInstances·numout) + p·numout + q = 1`, holding value `10`; the code
stores at `p·numout·blocksize + i·numout + q`, so position 1 actually holds
instance 0's sample 1 (value `1`).  Also the output file is opened with
`numout = 1` channels, not `numInstances·numout = 2`. -/
theorem C5_counterexample :
    interleaveoutput 2 2 1 2 (fun p _ i => ((p * 10 + i : ℕ) : ℚ)) (fun _ => 0)
        (0 * (2 * 1) + 1 * 1 + 0) = 1 ∧
    ((fun p _ i => ((p * 10 + i : ℕ) : ℚ)) 1 0 0) = 10 ∧
    ((1 : ℚ) ≠ 10) ∧
    outputChannels 1 = 1 ∧ outputChannels 1 ≠ 2 * 1 := by
  refine ⟨by with_unfolding_all decide, by norm_num, by norm_num, rfl, by decide⟩

/-- Claim C5 (corrected).  `interleaveoutput` copies sample `i` of instance
`p`'s output port `q` to interleaved position
`p·numout·blocksize + i·numout + q` — each instance occupies a contiguous
block-sized region with frames interleaved only within it — and the output
file is opened with `numout` channels (so the per-block write of
`numread` frames consumes only the first `numread·numout` samples). -/
theorem C5_interleave_amended (nr np no bs p q i : ℕ) (ob : ℕ → ℕ → ℕ → ℚ)
    (snd : ℕ → ℚ) (hnr : nr ≤ bs) (hp : p < np) (hq : q < no) (hi : i < nr) :
    interleaveoutput nr np no bs ob snd (p * no * bs + i * no + q) = ob p q i ∧
    outputChannels no = no :=
  ⟨interleaveoutput_value ob snd hnr hp hq hi, rfl⟩

/-- Witness for C5: instance 1, port 0, sample 0 of the 2×1×2 case lands at
position `1·1·2 + 0·1 + 0 = 2`. -/
theorem C5_witness :
    ((2 : ℕ) ≤ 2 ∧ (1 : ℕ) < 2 ∧ (0 : ℕ) < 1 ∧ (0 : ℕ) < 2) ∧
    (interleaveoutput 2 2 1 2 (fun p _ i => ((p * 10 + i : ℕ) : ℚ)) (fun _ => 0)
        (1 * 1 * 2 + 0 * 1 + 0) = (fun p _ i => ((p * 10 + i : ℕ) : ℚ)) 1 0 0 ∧
      outputChannels 1 = 1) :=
  ⟨⟨by decide, by decide, by decide, by decide⟩,
   C5_interleave_amended 2 2 1 2 1 0 0 (fun p _ i => ((p * 10 + i : ℕ) : ℚ)) (fun _ => 0)
     (by decide) (by decide) (by decide) (by decide)⟩

/-- Claim C10 (confirmed).  (1) A nonempty `-p` entry with no colon is a fatal
parse error: control resolution returns `none`, and (2) the whole batch run
aborts before any block is processed.  (3) A well-formed entry whose symbol
matches no control input port only increments the warning counter and leaves
every resolved value unchanged.  (4) A matching entry is applied last: its
parsed value overwrites whatever the metadata defaults, the preset and the
freewheel step produced at that ordinal. -/
theorem C10_param_overrides :
    (∀ (P : PluginPorts) (sf : List Char → ℚ) (preset : List (List Char × ℚ))
       (args : List (List Char)),
      (∃ arg ∈ args, ∃ bad ∈ splitAll ',' arg, bad ≠ [] ∧ splitAtChar ':' bad = none) →
      resolveControls P sf preset args = none) ∧
    (∀ (P : PluginPorts) (sf : List Char → ℚ) (preset : List (List Char × ℚ))
       (audioInSyms cargs args : List (List Char)) (mixd check : Bool)
       (nch no bs : ℕ) (outs : ℕ → ℕ → ℕ → ℕ → ℚ) (file : List ℚ),
      (∃ arg ∈ args, ∃ bad ∈ splitAll ',' arg, bad ≠ [] ∧ splitAtChar ':' bad = none) →
      runBatch P sf preset audioInSyms cargs args mixd check nch no bs outs file = none) ∧
    (∀ (P : PluginPorts) (sf : List Char → ℚ) (item : List Char)
       (rest : List (List Char)) (cp : List ℚ) (w : ℕ) (s vt : List Char),
      splitAtChar ':' item = some (s, vt) → findSym (controlSyms P) s = none →
      paramItems P sf (item :: rest) cp w = paramItems P sf rest cp (w + 1)) ∧
    (∀ (P : PluginPorts) (sf : List Char → ℚ) (preset : List (List Char × ℚ))
       (arg item s vt : List Char) (port : ℕ),
      splitAll ',' arg = [item] → splitAtChar ':' item = some (s, vt) →
      findSym (controlSyms P) s = some port →
      resolveControls P sf preset [arg]
        = some ((afterFreewheel P preset).set port (sf vt), 0)) := by
  refine ⟨?_, ?_, ?_, ?_⟩
  · intro P sf preset args hbad
    rw [resolveControls]
    exact paramArgs_none_of_bad P sf args hbad _ _
  · intro P sf preset syms cargs args mixd check nch no bs outs file hbad
    rw [runBatch]
    rcases hb : buildConnections syms nch mixd cargs with _ | r
    · simp only [hb]
    · simp only [hb]
      obtain ⟨np, conn, w⟩ := r
      have hres : resolveControls P sf preset args = none := by
        rw [resolveControls]
        exact paramArgs_none_of_bad P sf args hbad _ _
      simp only [hres]
  · intro P sf item rest cp w s vt h hf
    exact paramItems_unknown P sf item rest cp w s vt h hf
  · intro P sf preset arg item s vt port hsa hsp hfs
    rw [resolveControls, paramArgs, hsa,
      paramItems_match P sf item [] (afterFreewheel P preset) 0 s vt port hsp hfs]
    rfl

/-- Witness for C10: for `ovExample` (single control port `g`, default 3), the
override entry `g:7` parsed with a `strtof` stub returning 9 overwrites
ordinal 0 with that value. -/
theorem C10_witness :
    resolveControls ovExample (fun _ => (9 : ℚ)) [] [['g', ':', '7']]
      = some ((afterFreewheel ovExample []).set 0 ((fun _ => (9 : ℚ)) ['7']), 0) :=
  C10_param_overrides.2.2.2 ovExample (fun _ => (9 : ℚ)) [] ['g', ':', '7']
    ['g', ':', '7'] ['g'] ['7'] 0 rfl rfl rfl

end Lv2file
